import Mathlib

/-!
Verification of the DiagMC diagram state machine and Metropolis loop.

The development shallowly embeds the C++ sources of the repository:

* `Diagram_core` and its operations follow `diagram.cpp` (the revision whose
  behaviour the repository's own test suite `tests/tests.cpp` pins down:
  the constructor validates beta, the spin, H/GAMMA, the vertex count, the
  vertex bounds and sortedness, and `attempt_remove_segment` uses the vertex
  after `tau2` — or beta — as `tau2max`).
* `run_simulation` and `SingleRunResults` follow `simulation.cpp`, with the
  two Mersenne-Twister streams abstracted as arbitrary draw streams
  `uchoice ddraw : Nat -> Real` (the loop is deterministic given the draws).

C++ `double` arithmetic is idealised as real arithmetic; `size_t` arithmetic
is kept exact where it can wrap (the `size() - 1` in
`acceptance_rate_remove`, which underflows on an order-0 diagram).
Out-of-range iterator dereferences (undefined behaviour in C++) are modelled
by `List.getD` defaults and are flagged in comments where they can fire.
-/

noncomputable section

/-- The diagram state: `_beta`, `_s0`, `_H`, `_GAMMA` and the vertex list,
as in class `Diagram_core` of `diagram.h` / `diagram.cpp`. -/
structure Diagram_core where
  beta : ℝ
  s0 : ℤ
  H : ℝ
  GAMMA : ℝ
  vertices : List ℝ

/-- `std::numeric_limits<double>::epsilon()` = 2⁻⁵², used by the
constructor's H/GAMMA validation. -/
def machine_eps : ℝ := 1 / 2 ^ 52

/-- The condition under which `Diagram_core`'s constructor (and
`Diagram::reset_diagram`) throws `std::invalid_argument`, read off the
checks in `diagram.cpp` in source order. -/
def invalid_params (beta : ℝ) (s0 : ℤ) (H GAMMA : ℝ) (vertices : List ℝ) : Prop :=
  beta ≤ 0 ∨ (s0 ≠ 1 ∧ s0 ≠ -1) ∨ (|H| < machine_eps ∧ |GAMMA| < machine_eps) ∨
    vertices.length % 2 = 1 ∨ (∃ v ∈ vertices, beta < v) ∨
    ¬ List.Chain' (fun a b => a ≤ b) vertices

/-- The validating constructor `Diagram_core::Diagram_core`. Each `if`
mirrors one `throw std::invalid_argument` in `diagram.cpp`; note that the
H/GAMMA check compares against machine epsilon and the sortedness check is
`std::is_sorted`, i.e. non-strict. -/
def Diagram_core.make (beta : ℝ) (s0 : ℤ) (H GAMMA : ℝ) (vertices : List ℝ) :
    Except String Diagram_core :=
  if ¬ 0 < beta then .error "beta must be > 0" else
  if s0 ≠ 1 ∧ s0 ≠ -1 then .error "The spin can either be +1 or -1" else
  if |H| < machine_eps ∧ |GAMMA| < machine_eps then .error "H and GAMMA cannot both be 0" else
  if vertices.length % 2 ≠ 0 then .error "The vertices list must contain an even number of elements" else
  if ∃ v ∈ vertices, beta < v then .error "The vertices list contains values > beta" else
  if ¬ List.Chain' (fun a b => a ≤ b) vertices then .error "The list used to initialize the diagram was not sorted" else
  .ok ⟨beta, s0, H, GAMMA, vertices⟩

/-- `Diagram::reset_diagram`: runs the same validation sequence as the
constructor and only then assigns every field. On failure the first
component carries the error message and the state component is the
receiver, unchanged (all checks in `diagram.cpp` precede all assignments).
The generator re-seeding is not modelled. -/
def reset_diagram (d : Diagram_core) (beta : ℝ) (s0 : ℤ) (H GAMMA : ℝ)
    (vertices : List ℝ) : Option String × Diagram_core :=
  if ¬ 0 < beta then (some "beta must be > 0", d) else
  if s0 ≠ 1 ∧ s0 ≠ -1 then (some "The spin can either be +1 or -1", d) else
  if |H| < machine_eps ∧ |GAMMA| < machine_eps then (some "H and GAMMA cannot both be 0", d) else
  if vertices.length % 2 ≠ 0 then (some "The vertices list must contain an even number of elements", d) else
  if ∃ v ∈ vertices, beta < v then (some "The vertices list contains values > beta", d) else
  if ¬ List.Chain' (fun a b => a ≤ b) vertices then (some "The list used to initialize the diagram was not sorted", d) else
  (none, ⟨beta, s0, H, GAMMA, vertices⟩)

/-- `Diagram_core::acceptance_rate_add`: GAMMA*GAMMA * exp(-2 H spin (tau2-tau1))
* beta * (tau2max - tau1) / (vertices.size() + 1). (`size() + 1` cannot wrap
for any list that fits in memory, so it is modelled as plain `length + 1`.) -/
def acceptance_rate_add (d : Diagram_core) (tau1 tau2 tau2max new_segment_spin : ℝ) : ℝ :=
  d.GAMMA * d.GAMMA * Real.exp (-2 * d.H * new_segment_spin * (tau2 - tau1)) *
    d.beta * (tau2max - tau1) / ((d.vertices.length : ℝ) + 1)

/-- `vertices.size() - 1` computed in `size_t`: wraps to 2⁶⁴ - 1 when the
list is empty. -/
def size_t_pred (n : ℕ) : ℕ := (n + (2 ^ 64 - 1)) % 2 ^ 64

/-- `Diagram_core::acceptance_rate_remove`: exp(2 H spin (tau2-tau1)) *
(vertices.size() - 1) / (GAMMA*GAMMA * beta * (tau2max - tau1)), where the
`size() - 1` is unsigned `size_t` subtraction. -/
def acceptance_rate_remove (d : Diagram_core) (tau1 tau2 tau2max segment_toberemoved_spin : ℝ) : ℝ :=
  Real.exp (2 * d.H * segment_toberemoved_spin * (tau2 - tau1)) *
    (size_t_pred d.vertices.length : ℝ) /
    (d.GAMMA * d.GAMMA * d.beta * (tau2max - tau1))

/-- `Diagram_core::acceptance_rate_flip`: exp(2 H s0 (beta - 2 sum_deltatau)). -/
def acceptance_rate_flip (d : Diagram_core) (sum_deltatau : ℝ) : ℝ :=
  Real.exp (2 * d.H * (d.s0 : ℝ) * (d.beta - 2 * sum_deltatau))

/-- The leading run of vertices not greater than `tau1`: the elements the
scan loop of `attempt_add_segment` steps over before it stops at the first
vertex `> tau1` (the loop condition is `*i > tau1`, i.e. `tau1 < v`). -/
def verts_le (tau1 : ℝ) : List ℝ → List ℝ
  | [] => []
  | v :: vs => if tau1 < v then [] else v :: verts_le tau1 vs

/-- The rest of the vertex list from the first vertex `> tau1` on: the
position of the `tau3` iterator at which the scan loop of
`attempt_add_segment` stops (empty when the iterator is `end()`). -/
def verts_gt (tau1 : ℝ) : List ℝ → List ℝ
  | [] => []
  | v :: vs => if tau1 < v then v :: vs else verts_gt tau1 vs

/-- `tau1 = RN1 * _beta` in `attempt_add_segment`. -/
def add_tau1 (d : Diagram_core) (RN1 : ℝ) : ℝ := RN1 * d.beta

/-- `new_segment_index` in `attempt_add_segment`: the number of vertices the
scan loop stepped over before stopping. -/
def add_new_segment_index (d : Diagram_core) (RN1 : ℝ) : ℕ :=
  (verts_le (add_tau1 d RN1) d.vertices).length

/-- `tau2max` in `attempt_add_segment`: `*tau3_it` when the scan stopped at
a vertex, `_beta` when it reached `end()`. -/
def add_tau2max (d : Diagram_core) (RN1 : ℝ) : ℝ :=
  (verts_gt (add_tau1 d RN1) d.vertices).headD d.beta

/-- `tau2 = tau1 + RN2 * (tau2max - tau1)` in `attempt_add_segment`. -/
def add_tau2 (d : Diagram_core) (RN1 RN2 : ℝ) : ℝ :=
  add_tau1 d RN1 + RN2 * (add_tau2max d RN1 - add_tau1 d RN1)

/-- `new_segment_spin = _s0 * pow(-1, new_segment_index + 1)` in
`attempt_add_segment`. -/
def add_spin (d : Diagram_core) (RN1 : ℝ) : ℝ :=
  (d.s0 : ℝ) * (-1 : ℝ) ^ (add_new_segment_index d RN1 + 1)

/-- `Diagram_core::attempt_add_segment`: on acceptance (`RNacc` below the
add rate) insert `tau1` then `tau2` immediately before the `tau3` iterator
and return `true`; otherwise leave the diagram unchanged and return
`false`. -/
def attempt_add_segment (d : Diagram_core) (RN1 RN2 RNacc : ℝ) : Bool × Diagram_core :=
  if RNacc < acceptance_rate_add d (add_tau1 d RN1) (add_tau2 d RN1 RN2)
      (add_tau2max d RN1) (add_spin d RN1) then
    (true, { d with vertices := verts_le (add_tau1 d RN1) d.vertices ++
      (add_tau1 d RN1 :: add_tau2 d RN1 RN2 :: verts_gt (add_tau1 d RN1) d.vertices) })
  else (false, d)

/-- `double` to `int` conversion: truncation toward zero. -/
def ctrunc (x : ℝ) : ℤ := if 0 ≤ x then ⌊x⌋ else ⌈x⌉

/-- `segment_toberemoved_index = RN1 * (order() - 1) + 1` in
`attempt_remove_segment` (an `int`, so the `double` value is truncated;
`order() - 1` is evaluated under the `order() != 0` guard, so the `size_t`
subtraction is exact). -/
def remove_segment_index (d : Diagram_core) (RN1 : ℝ) : ℤ :=
  ctrunc (RN1 * ((d.vertices.length : ℝ) - 1) + 1)

/-- The list position of `tau1` in `attempt_remove_segment`: the `tau1`
iterator is `begin()` advanced by `segment_toberemoved_index - 1`. -/
def remove_pos (d : Diagram_core) (RN1 : ℝ) : ℕ :=
  (remove_segment_index d RN1 - 1).toNat

/-- `tau1` in `attempt_remove_segment` (reading past the end of the list is
undefined behaviour in C++; modelled by the default 0). -/
def remove_tau1 (d : Diagram_core) (RN1 : ℝ) : ℝ :=
  d.vertices.getD (remove_pos d RN1) 0

/-- `tau2` in `attempt_remove_segment`: the vertex just after `tau1`
(default 0 for the past-the-end read, undefined behaviour in C++). -/
def remove_tau2 (d : Diagram_core) (RN1 : ℝ) : ℝ :=
  d.vertices.getD (remove_pos d RN1 + 1) 0

/-- `tau2max` in `attempt_remove_segment`: `*tau3_it` when the vertex just
after `tau2` exists, `_beta` when `tau3_it == end()`. -/
def remove_tau2max (d : Diagram_core) (RN1 : ℝ) : ℝ :=
  d.vertices.getD (remove_pos d RN1 + 2) d.beta

/-- `segment_toberemoved_spin = _s0 * pow(-1, segment_toberemoved_index)` in
`attempt_remove_segment`. -/
def remove_spin (d : Diagram_core) (RN1 : ℝ) : ℝ :=
  (d.s0 : ℝ) * (-1 : ℝ) ^ (remove_segment_index d RN1)

/-- `Diagram_core::attempt_remove_segment`: reject at order 0; otherwise on
acceptance erase the two vertices at the chosen pair's positions
(`erase(tau1_it, tau3_it)`) and return `true`, else leave the diagram
unchanged and return `false`. -/
def attempt_remove_segment (d : Diagram_core) (RN1 RNacc : ℝ) : Bool × Diagram_core :=
  if d.vertices.length = 0 then (false, d)
  else if RNacc < acceptance_rate_remove d (remove_tau1 d RN1) (remove_tau2 d RN1)
      (remove_tau2max d RN1) (remove_spin d RN1) then
    (true, { d with vertices :=
      d.vertices.take (remove_pos d RN1) ++ d.vertices.drop (remove_pos d RN1 + 2) })
  else (false, d)

/-- The alternating sum `(... + t4 - t3 + t2 - t1)` accumulated pairwise by
the loops of `Diagram_core::value` and `Diagram_core::attempt_spin_flip`.
The standalone member `Diagram_core::sum_deltatau` is declared in
`diagram.h` and called by `simulation.cpp` but its definition file is not
among the sources; this is the same pairwise loop, which the header
documents as `performing the sum (... +t4-t3 + t2-t1)`. (For an odd-length
list the C++ loop would run past the end; the model stops instead. All
reachable diagrams have even length.) -/
def sum_deltatau : List ℝ → ℝ
  | t1 :: t2 :: rest => -t1 + t2 + sum_deltatau rest
  | _ => 0

/-- `Diagram_core::attempt_spin_flip`: compute the alternating sum, and on
acceptance negate `_s0` (`_s0 *= -1`) and return `true`; otherwise leave
the diagram unchanged and return `false`. -/
def attempt_spin_flip (d : Diagram_core) (RNacc : ℝ) : Bool × Diagram_core :=
  if RNacc < acceptance_rate_flip d (sum_deltatau d.vertices) then
    (true, { d with s0 := d.s0 * -1 })
  else (false, d)

/-- `attempt_flip_probability = 1./3` in `run_simulation`. -/
def attempt_flip_probability : ℝ := 1 / 3

/-- `attempt_add_probability = (1 - attempt_flip_probability) / 2`. -/
def attempt_add_probability : ℝ := (1 - attempt_flip_probability) / 2

/-- `attempt_remove_probability = attempt_add_probability`. -/
def attempt_remove_probability : ℝ := attempt_add_probability

/-- The mutable state of `run_simulation`'s main loop: the diagram, the
position reached in the diagram's draw stream (the model of its private
Mersenne-Twister generator), the attempted/accepted counters of the
`SingleRunResults` being filled in, and the `temp_*` accumulators. -/
structure SimState where
  diag : Diagram_core
  dpos : ℕ
  N_attempted_addsegment : ℕ
  N_accepted_addsegment : ℕ
  N_attempted_removesegment : ℕ
  N_accepted_removesegment : ℕ
  N_attempted_flips : ℕ
  N_accepted_flips : ℕ
  N_measures : ℕ
  temp_sigmax : ℝ
  temp_sigmaz : ℝ
  temp_avgorder : ℝ
  temp_maxorder : ℝ

/-- The state before the first loop iteration: a fresh zero-order diagram
`Diagram(beta, initial_s0, H, GAMMA, {}, diagram_seed)` and zeroed
counters and accumulators. -/
def sim_init (beta : ℝ) (s0 : ℤ) (H GAMMA : ℝ) : SimState :=
  ⟨⟨beta, s0, H, GAMMA, []⟩, 0, 0, 0, 0, 0, 0, 0, 0, 0, 0, 0, 0⟩

/-- The update-selection part of one loop iteration: draw `which_update`
from the update-choice stream and run the selected `attempt_*` with fresh
draws from the diagram stream, updating the attempted/accepted counters.
(C++ leaves the evaluation order of the `RNG` macro arguments unspecified;
the model fixes it left to right, which no claim depends on.) -/
def sim_update (uchoice ddraw : ℕ → ℝ) (i : ℕ) (s : SimState) : SimState :=
  let which := uchoice i
  if which < attempt_add_probability then
    let r := attempt_add_segment s.diag (ddraw s.dpos) (ddraw (s.dpos + 1)) (ddraw (s.dpos + 2))
    { s with diag := r.2, dpos := s.dpos + 3,
             N_attempted_addsegment := s.N_attempted_addsegment + 1,
             N_accepted_addsegment := s.N_accepted_addsegment + (if r.1 then 1 else 0) }
  else if which < attempt_add_probability + attempt_remove_probability then
    let r := attempt_remove_segment s.diag (ddraw s.dpos) (ddraw (s.dpos + 1))
    { s with diag := r.2, dpos := s.dpos + 2,
             N_attempted_removesegment := s.N_attempted_removesegment + 1,
             N_accepted_removesegment := s.N_accepted_removesegment + (if r.1 then 1 else 0) }
  else
    let r := attempt_spin_flip s.diag (ddraw s.dpos)
    { s with diag := r.2, dpos := s.dpos + 1,
             N_attempted_flips := s.N_attempted_flips + 1,
             N_accepted_flips := s.N_accepted_flips + (if r.1 then 1 else 0) }

/-- The statistics-collection part of one loop iteration (the body of
`if (loop_iteration >= N_thermalization_steps)`): accumulate the current
diagram order into the sigma-x and average-order sums, the sigma-z
estimator term, the running maximum, and `N_measures`. -/
def sim_measure (beta : ℝ) (s : SimState) : SimState :=
  { s with
    temp_sigmax := s.temp_sigmax + (s.diag.vertices.length : ℝ),
    temp_sigmaz := s.temp_sigmaz +
      (beta - 2 * sum_deltatau s.diag.vertices) * (s.diag.s0 : ℝ) / beta,
    temp_avgorder := s.temp_avgorder + (s.diag.vertices.length : ℝ),
    temp_maxorder := if s.temp_maxorder > (s.diag.vertices.length : ℝ) then s.temp_maxorder
      else (s.diag.vertices.length : ℝ),
    N_measures := s.N_measures + 1 }

/-- One iteration of `run_simulation`'s main loop, at loop counter `i`. -/
def sim_step (beta : ℝ) (uchoice ddraw : ℕ → ℝ) (Nth i : ℕ) (s : SimState) : SimState :=
  let s' := sim_update uchoice ddraw i s
  if Nth ≤ i then sim_measure beta s' else s'

/-- The loop state after `n` iterations of `run_simulation`'s main loop. -/
def sim_loop (beta : ℝ) (s0 : ℤ) (H GAMMA : ℝ) (uchoice ddraw : ℕ → ℝ) (Nth : ℕ) :
    ℕ → SimState
  | 0 => sim_init beta s0 H GAMMA
  | n + 1 => sim_step beta uchoice ddraw Nth n (sim_loop beta s0 H GAMMA uchoice ddraw Nth n)

/-- The fields of `SingleRunResults` that `run_simulation` computes (the
echoed input parameters are omitted, and the wall-clock `run_time` is not
modelled). `max_diagram_order` and `avg_diagram_order` are
`unsigned long long int` in `simulation.h`, so the `double` values assigned
to them at loop completion are truncated toward zero. -/
structure SingleRunResults where
  N_measures : ℕ
  N_attempted_addsegment : ℕ
  N_accepted_addsegment : ℕ
  N_attempted_removesegment : ℕ
  N_accepted_removesegment : ℕ
  N_attempted_flips : ℕ
  N_accepted_flips : ℕ
  max_diagram_order : ℕ
  avg_diagram_order : ℕ
  measured_sigmax : ℝ
  measured_sigmaz : ℝ

/-- `run_simulation`: run the main loop `N_total_steps` times from a fresh
zero-order diagram, then fill in the derived fields:
`measured_sigmax = temp_sigmax / -(N_measures * beta * GAMMA)`,
`measured_sigmaz = temp_sigmaz / N_measures`,
`avg_diagram_order = temp_avgorder / N_measures` (truncated to the
`unsigned long long` field), `max_diagram_order = temp_maxorder`. -/
def run_simulation (beta : ℝ) (s0 : ℤ) (H GAMMA : ℝ)
    (N_total_steps N_thermalization_steps : ℕ) (uchoice ddraw : ℕ → ℝ) : SingleRunResults :=
  let s := sim_loop beta s0 H GAMMA uchoice ddraw N_thermalization_steps N_total_steps
  { N_measures := s.N_measures,
    N_attempted_addsegment := s.N_attempted_addsegment,
    N_accepted_addsegment := s.N_accepted_addsegment,
    N_attempted_removesegment := s.N_attempted_removesegment,
    N_accepted_removesegment := s.N_accepted_removesegment,
    N_attempted_flips := s.N_attempted_flips,
    N_accepted_flips := s.N_accepted_flips,
    max_diagram_order := ⌊s.temp_maxorder⌋₊,
    avg_diagram_order := ⌊s.temp_avgorder / (s.N_measures : ℝ)⌋₊,
    measured_sigmax := s.temp_sigmax / -((s.N_measures : ℝ) * beta * GAMMA),
    measured_sigmaz := s.temp_sigmaz / (s.N_measures : ℝ) }

/-- One Markov-chain move: a call to one of the three `attempt_*` updates
with draws in the ranges the random streams produce (`[0,1)` for the `RN1`
of `attempt_remove_segment`, `[0,1]` otherwise). The resulting state is the
diagram component of the call's result, whether accepted or rejected. -/
inductive Reachable : Diagram_core → Diagram_core → Prop
  | refl (d : Diagram_core) : Reachable d d
  | add_step {d0 d : Diagram_core} (RN1 RN2 RNacc : ℝ) :
      Reachable d0 d → 0 ≤ RN1 → RN1 ≤ 1 → 0 ≤ RN2 → RN2 ≤ 1 → 0 ≤ RNacc → RNacc ≤ 1 →
      Reachable d0 (attempt_add_segment d RN1 RN2 RNacc).2
  | remove_step {d0 d : Diagram_core} (RN1 RNacc : ℝ) :
      Reachable d0 d → 0 ≤ RN1 → RN1 < 1 → 0 ≤ RNacc → RNacc ≤ 1 →
      Reachable d0 (attempt_remove_segment d RN1 RNacc).2
  | flip_step {d0 d : Diagram_core} (RNacc : ℝ) :
      Reachable d0 d → 0 ≤ RNacc → RNacc ≤ 1 →
      Reachable d0 (attempt_spin_flip d RNacc).2

/-! ### Basic facts about the vertex-scan helpers -/

theorem verts_le_append_verts_gt (t : ℝ) (l : List ℝ) :
    verts_le t l ++ verts_gt t l = l := by
  induction l with
  | nil => rfl
  | cons v vs ih =>
      by_cases h : t < v
      · simp [verts_le, verts_gt, h]
      · simpa [verts_le, verts_gt, h] using ih

theorem mem_verts_le {t x : ℝ} {l : List ℝ} (hx : x ∈ verts_le t l) : x ≤ t := by
  induction l with
  | nil => simp [verts_le] at hx
  | cons v vs ih =>
      by_cases h : t < v
      · simp [verts_le, h] at hx
      · simp only [verts_le, if_neg h, List.mem_cons] at hx
        rcases hx with rfl | hx
        · exact le_of_not_lt h
        · exact ih hx

theorem verts_gt_cases (t : ℝ) (l : List ℝ) :
    verts_gt t l = [] ∨ ∃ h rest, verts_gt t l = h :: rest ∧ t < h := by
  induction l with
  | nil => exact Or.inl rfl
  | cons v vs ih =>
      by_cases h : t < v
      · exact Or.inr ⟨v, vs, by simp [verts_gt, h], h⟩
      · simpa [verts_gt, h] using ih

theorem attempt_add_length (d : Diagram_core) (RN1 RN2 RNacc : ℝ) :
    (attempt_add_segment d RN1 RN2 RNacc).1 = true →
      (attempt_add_segment d RN1 RN2 RNacc).2.vertices.length = d.vertices.length + 2 := by
  intro _
  unfold attempt_add_segment at *
  split
  · have h := congrArg List.length (verts_le_append_verts_gt (add_tau1 d RN1) d.vertices)
    simp only [List.length_append] at h
    simp only [List.length_append, List.length_cons]
    omega
  · simp_all

theorem attempt_add_rejected (d : Diagram_core) (RN1 RN2 RNacc : ℝ) :
    (attempt_add_segment d RN1 RN2 RNacc).1 = false →
      (attempt_add_segment d RN1 RN2 RNacc).2 = d := by
  unfold attempt_add_segment
  split
  · intro h; exact absurd h (by simp)
  · intro _; rfl

theorem ctrunc_of_nonneg {x : ℝ} (h : 0 ≤ x) : ctrunc x = ⌊x⌋ := if_pos h

/-- For `RN1 ∈ [0,1)` and a diagram of order `n ≥ 2`, the truncated
`segment_toberemoved_index` lies in `[1, n-1]`. -/
theorem remove_segment_index_bounds (d : Diagram_core) (RN1 : ℝ)
    (h1 : 0 ≤ RN1) (h2 : RN1 < 1) (hn : 2 ≤ d.vertices.length) :
    1 ≤ remove_segment_index d RN1 ∧
      remove_segment_index d RN1 ≤ (d.vertices.length : ℤ) - 1 := by
  have hlen : (2 : ℝ) ≤ (d.vertices.length : ℝ) := by exact_mod_cast hn
  have hx : (0 : ℝ) ≤ RN1 * ((d.vertices.length : ℝ) - 1) := mul_nonneg h1 (by linarith)
  unfold remove_segment_index
  rw [ctrunc_of_nonneg (by linarith)]
  refine ⟨Int.le_floor.2 (by push_cast; linarith), ?_⟩
  have hlt : RN1 * ((d.vertices.length : ℝ) - 1) + 1 < (d.vertices.length : ℝ) := by nlinarith
  have hfl : ⌊RN1 * ((d.vertices.length : ℝ) - 1) + 1⌋ < (d.vertices.length : ℤ) :=
    Int.floor_lt.2 (by push_cast; linarith)
  omega

theorem attempt_remove_rejected (d : Diagram_core) (RN1 RNacc : ℝ) :
    (attempt_remove_segment d RN1 RNacc).1 = false →
      (attempt_remove_segment d RN1 RNacc).2 = d := by
  unfold attempt_remove_segment
  split
  · intro _; rfl
  · split
    · intro h; exact absurd h (by simp)
    · intro _; rfl

theorem attempt_remove_length (d : Diagram_core) (RN1 RNacc : ℝ)
    (heven : Even d.vertices.length) (h1 : 0 ≤ RN1) (h2 : RN1 < 1) :
    (attempt_remove_segment d RN1 RNacc).1 = true →
      (attempt_remove_segment d RN1 RNacc).2.vertices.length + 2 = d.vertices.length := by
  unfold attempt_remove_segment
  split
  · intro h; exact absurd h (by simp)
  · rename_i hne
    have hn2 : 2 ≤ d.vertices.length := by
      rcases heven with ⟨k, hk⟩; omega
    have hbounds := remove_segment_index_bounds d RN1 h1 h2 hn2
    have hpos : remove_pos d RN1 + 2 ≤ d.vertices.length := by
      unfold remove_pos; omega
    split
    · intro _
      simp only [List.length_append, List.length_take, List.length_drop]
      omega
    · intro h; exact absurd h (by simp)

/-! ### C6: the end-to-end add-segment scenario -/

/-- C6: on the diagram with beta = 10, s0 = +1, H = 1, GAMMA = 1 and
vertices [1, 2, 7, 9], `attempt_add_segment` with RN1 = 0.5, RN2 = 0.25 and
RNacc = -1 returns `true` and leaves the vertex sequence
[1, 2, 5, 5.5, 7, 9]. -/
theorem add_segment_example_scenario :
    attempt_add_segment ⟨10, 1, 1, 1, [1, 2, 7, 9]⟩ 0.5 0.25 (-1) =
      (true, ⟨10, 1, 1, 1, [1, 2, 5, 5.5, 7, 9]⟩) := by
  have htau1 : add_tau1 ⟨10, 1, 1, 1, [1, 2, 7, 9]⟩ 0.5 = 5 := by
    rw [add_tau1]; norm_num
  have hle : verts_le 5 [1, 2, 7, 9] = [1, 2] := by
    norm_num [verts_le]
  have hgt : verts_gt 5 [1, 2, 7, 9] = [7, 9] := by
    norm_num [verts_gt]
  have htmax : add_tau2max ⟨10, 1, 1, 1, [1, 2, 7, 9]⟩ 0.5 = 7 := by
    rw [add_tau2max, htau1]
    show (verts_gt 5 [1, 2, 7, 9]).headD 10 = 7
    rw [hgt]; rfl
  have htau2 : add_tau2 ⟨10, 1, 1, 1, [1, 2, 7, 9]⟩ 0.5 0.25 = 5.5 := by
    rw [add_tau2, htau1, htmax]; norm_num
  have hidx : add_new_segment_index ⟨10, 1, 1, 1, [1, 2, 7, 9]⟩ 0.5 = 2 := by
    rw [add_new_segment_index, htau1]
    show (verts_le 5 [1, 2, 7, 9]).length = 2
    rw [hle]; rfl
  have hspin : add_spin ⟨10, 1, 1, 1, [1, 2, 7, 9]⟩ 0.5 = -1 := by
    rw [add_spin, hidx]; norm_num
  have hrate : (-1 : ℝ) < acceptance_rate_add ⟨10, 1, 1, 1, [1, 2, 7, 9]⟩ 5 5.5 7 (-1) := by
    have h0 : (0 : ℝ) < acceptance_rate_add ⟨10, 1, 1, 1, [1, 2, 7, 9]⟩ 5 5.5 7 (-1) := by
      unfold acceptance_rate_add
      show (0 : ℝ) < 1 * 1 * Real.exp (-2 * 1 * -1 * (5.5 - 5)) * 10 * (7 - 5) / ((4 : ℝ) + 1)
      positivity
    linarith
  unfold attempt_add_segment
  rw [htau1, htau2, htmax, hspin, if_pos hrate]
  show (true, (⟨10, 1, 1, 1, verts_le 5 [1, 2, 7, 9] ++ 5 :: 5.5 :: verts_gt 5 [1, 2, 7, 9]⟩ :
    Diagram_core)) = _
  rw [hle, hgt]
  rfl

/-! ### C7: the spin-flip update is self-inverse -/

/-- C7: on any diagram, two `attempt_spin_flip` calls whose acceptance draws
are forced to accept (negative draws, below the always-positive rate)
restore `base_spin` and the whole state; moreover a single call (accepted or
not) never modifies `vertices`, `beta`, `H` or `GAMMA`. -/
theorem spin_flip_round_trip (d : Diagram_core) (RNacc RNacc' : ℝ)
    (h : RNacc < 0) (h' : RNacc' < 0) :
    (attempt_spin_flip d RNacc).1 = true ∧
    (attempt_spin_flip (attempt_spin_flip d RNacc).2 RNacc').2 = d ∧
    (∀ r : ℝ, (attempt_spin_flip d r).2.vertices = d.vertices ∧
      (attempt_spin_flip d r).2.beta = d.beta ∧
      (attempt_spin_flip d r).2.H = d.H ∧
      (attempt_spin_flip d r).2.GAMMA = d.GAMMA) := by
  have hacc : ∀ e : Diagram_core, ∀ r : ℝ, r < 0 →
      attempt_spin_flip e r = (true, { e with s0 := e.s0 * -1 }) := by
    intro e r hr
    have hpos : r < acceptance_rate_flip e (sum_deltatau e.vertices) :=
      lt_trans hr (by unfold acceptance_rate_flip; exact Real.exp_pos _)
    unfold attempt_spin_flip
    rw [if_pos hpos]
  refine ⟨by rw [hacc d RNacc h], ?_, ?_⟩
  · rw [hacc d RNacc h, hacc _ RNacc' h']
    cases d
    simp
  · intro r
    unfold attempt_spin_flip
    split <;> exact ⟨rfl, rfl, rfl, rfl⟩

/-- C7 witness at a concrete diagram and draws. -/
theorem spin_flip_round_trip_witness :
    (-1 : ℝ) < 0 ∧
    (attempt_spin_flip (attempt_spin_flip ⟨10, 1, 1, 1, [1, 2, 7, 9]⟩ (-1)).2 (-1)).2 =
      ⟨10, 1, 1, 1, [1, 2, 7, 9]⟩ :=
  ⟨by norm_num,
   (spin_flip_round_trip ⟨10, 1, 1, 1, [1, 2, 7, 9]⟩ (-1) (-1)
      (by norm_num) (by norm_num)).2.1⟩

/-! ### C1: tau2max in the remove update -/

theorem remove_pos_eq_floor (d : Diagram_core) (RN1 : ℝ)
    (h1 : 0 ≤ RN1) (hn : 1 ≤ d.vertices.length) :
    remove_pos d RN1 = (⌊RN1 * ((d.vertices.length : ℝ) - 1)⌋).toNat := by
  have hlen : (1 : ℝ) ≤ (d.vertices.length : ℝ) := by exact_mod_cast hn
  have hx : (0 : ℝ) ≤ RN1 * ((d.vertices.length : ℝ) - 1) := mul_nonneg h1 (by linarith)
  unfold remove_pos remove_segment_index
  rw [ctrunc_of_nonneg (by linarith), Int.floor_add_one]
  simp

/-- The spec's description of the removal proposal (C1): the segment index
is `floor(rn1 * (order - 1))` counting adjacent vertex pairs from the first
pair, `tau2` is the second vertex of the selected pair, and `tau2max` is
the vertex immediately following `tau2` in the vertex sequence, or `beta`
if `tau2` is the last vertex. -/
def spec_remove_tau2max (d : Diagram_core) (RN1 : ℝ) : ℝ :=
  let j : ℕ := (⌊RN1 * ((d.vertices.length : ℝ) - 1)⌋).toNat
  if hlt : j + 2 < d.vertices.length then d.vertices.get ⟨j + 2, hlt⟩ else d.beta

/-- C1: on a diagram of order ≥ 2, for every RN1 in [0,1), the `tau2max`
that `attempt_remove_segment` feeds to `acceptance_rate_remove` is the
vertex immediately following `tau2`, or `beta` when `tau2` is the last
vertex. -/
theorem remove_tau2max_is_next_vertex_or_beta (d : Diagram_core) (RN1 : ℝ)
    (hord : 2 ≤ d.vertices.length) (h1 : 0 ≤ RN1) (h2 : RN1 < 1) :
    remove_tau2max d RN1 = spec_remove_tau2max d RN1 := by
  unfold remove_tau2max spec_remove_tau2max
  rw [remove_pos_eq_floor d RN1 h1 (by omega)]
  by_cases hlt : (⌊RN1 * ((d.vertices.length : ℝ) - 1)⌋).toNat + 2 < d.vertices.length
  · rw [dif_pos hlt]
    exact List.getD_eq_get d.vertices d.beta hlt
  · rw [dif_neg hlt]
    exact List.getD_eq_default d.vertices d.beta (by omega)

/-- C1 witness at a concrete diagram and draw. -/
theorem remove_tau2max_witness :
    2 ≤ (⟨10, 1, 1, 1, [1, 2, 7, 9]⟩ : Diagram_core).vertices.length ∧
    (0 : ℝ) ≤ 0.5 ∧ (0.5 : ℝ) < 1 ∧
    remove_tau2max ⟨10, 1, 1, 1, [1, 2, 7, 9]⟩ 0.5 =
      spec_remove_tau2max ⟨10, 1, 1, 1, [1, 2, 7, 9]⟩ 0.5 :=
  ⟨by norm_num, by norm_num, by norm_num,
   remove_tau2max_is_next_vertex_or_beta ⟨10, 1, 1, 1, [1, 2, 7, 9]⟩ 0.5
     (by norm_num) (by norm_num) (by norm_num)⟩

/-! ### C2: parity of the diagram order -/

theorem attempt_spin_flip_vertices (d : Diagram_core) (r : ℝ) :
    (attempt_spin_flip d r).2.vertices = d.vertices := by
  unfold attempt_spin_flip
  split <;> rfl

theorem make_ok_even {b : ℝ} {s : ℤ} {hh g : ℝ} {vs : List ℝ} {d0 : Diagram_core}
    (h : Diagram_core.make b s hh g vs = Except.ok d0) : Even d0.vertices.length := by
  unfold Diagram_core.make at h
  split_ifs at h with h1 h2 h3 h4 h5 h6
  all_goals first
    | exact Except.noConfusion h
    | (injection h with h'; subst h'; simpa [Nat.even_iff] using h4)

theorem reachable_even {d0 d : Diagram_core}
    (h0 : Even d0.vertices.length) (h : Reachable d0 d) : Even d.vertices.length := by
  induction h with
  | refl => exact h0
  | add_step RN1 RN2 RNacc hreach hr1 hr2 hr3 hr4 hr5 hr6 ih =>
      rename_i d'
      rcases Bool.eq_false_or_eq_true (attempt_add_segment d' RN1 RN2 RNacc).1 with hb | hb
      · rw [attempt_add_length d' RN1 RN2 RNacc hb]
        exact ih.add ⟨1, rfl⟩
      · rw [attempt_add_rejected d' RN1 RN2 RNacc hb]; exact ih
  | remove_step RN1 RNacc hreach hr1 hr2 hr3 hr4 ih =>
      rename_i d'
      rcases Bool.eq_false_or_eq_true (attempt_remove_segment d' RN1 RNacc).1 with hb | hb
      · have := attempt_remove_length d' RN1 RNacc ih hr1 hr2 hb
        rcases ih with ⟨k, hk⟩
        exact ⟨k - 1, by omega⟩
      · rw [attempt_remove_rejected d' RN1 RNacc hb]; exact ih
  | flip_step RNacc hreach hr1 hr2 ih =>
      rename_i d'
      rw [attempt_spin_flip_vertices d' RNacc]; exact ih

theorem attempt_remove_empty (d : Diagram_core) (RN1 RNacc : ℝ) (h : d.vertices = []) :
    attempt_remove_segment d RN1 RNacc = (false, d) := by
  unfold attempt_remove_segment
  rw [if_pos (by rw [h]; rfl)]

/-- C2 (amended): starting from any validly constructed diagram, every
diagram reachable by `attempt_add_segment`, `attempt_remove_segment` and
`attempt_spin_flip` calls — with draws in [0,1], the `RN1` fed to
`attempt_remove_segment` in [0,1) — has a vertex sequence of even length;
`attempt_add_segment` adds exactly 2 vertices on `true` and leaves the
diagram unchanged on `false`; on even order, with `RN1` in [0,1),
`attempt_remove_segment` removes exactly 2 vertices on `true` and leaves
the diagram unchanged on `false`; and on an empty vertex list
`attempt_remove_segment` returns `false` and leaves the diagram unchanged
for every `RN1` and `RNacc`, including `RNacc` below any positive rate. -/
theorem order_parity_invariants :
    (∀ (b : ℝ) (s : ℤ) (hh g : ℝ) (vs : List ℝ) (d0 d : Diagram_core),
        Diagram_core.make b s hh g vs = Except.ok d0 → Reachable d0 d →
        Even d.vertices.length) ∧
    (∀ (d : Diagram_core) (RN1 RN2 RNacc : ℝ),
        ((attempt_add_segment d RN1 RN2 RNacc).1 = true →
          (attempt_add_segment d RN1 RN2 RNacc).2.vertices.length = d.vertices.length + 2) ∧
        ((attempt_add_segment d RN1 RN2 RNacc).1 = false →
          (attempt_add_segment d RN1 RN2 RNacc).2 = d)) ∧
    (∀ (d : Diagram_core) (RN1 RNacc : ℝ), Even d.vertices.length →
        0 ≤ RN1 → RN1 < 1 →
        ((attempt_remove_segment d RN1 RNacc).1 = true →
          (attempt_remove_segment d RN1 RNacc).2.vertices.length + 2 = d.vertices.length) ∧
        ((attempt_remove_segment d RN1 RNacc).1 = false →
          (attempt_remove_segment d RN1 RNacc).2 = d)) ∧
    (∀ (d : Diagram_core) (RN1 RNacc : ℝ), d.vertices = [] →
        attempt_remove_segment d RN1 RNacc = (false, d)) := by
  refine ⟨?_, ?_, ?_, ?_⟩
  · intro b s hh g vs d0 d hmake hreach
    exact reachable_even (make_ok_even hmake) hreach
  · intro d RN1 RN2 RNacc
    exact ⟨attempt_add_length d RN1 RN2 RNacc, attempt_add_rejected d RN1 RN2 RNacc⟩
  · intro d RN1 RNacc heven h1 h2
    exact ⟨attempt_remove_length d RN1 RNacc heven h1 h2,
           attempt_remove_rejected d RN1 RNacc⟩
  · exact attempt_remove_empty

/-- C2 witness: a concretely constructed order-0 diagram is reachable with
even order, and the remove update on it always rejects, even at a forcing
draw. -/
theorem order_parity_invariants_witness :
    Diagram_core.make 1 1 0 1 [] = Except.ok ⟨1, 1, 0, 1, []⟩ ∧
    Even ((⟨1, 1, 0, 1, []⟩ : Diagram_core)).vertices.length ∧
    attempt_remove_segment ⟨1, 1, 0, 1, []⟩ 0.5 (-1) = (false, ⟨1, 1, 0, 1, []⟩) := by
  have hmake : Diagram_core.make 1 1 0 1 [] = Except.ok ⟨1, 1, 0, 1, []⟩ := by
    unfold Diagram_core.make machine_eps
    norm_num
  refine ⟨hmake, ?_, ?_⟩
  · exact order_parity_invariants.1 1 1 0 1 [] ⟨1, 1, 0, 1, []⟩ ⟨1, 1, 0, 1, []⟩ hmake
      (Reachable.refl _)
  · exact order_parity_invariants.2.2.2 ⟨1, 1, 0, 1, []⟩ 0.5 (-1) rfl

/-- C2 counterexample: the claim quantifies the draws over [0,1], but at
`RN1 = 1` on the validly constructed order-2 diagram below, the remove
update reads past the end of the vertex list (undefined behaviour in C++,
modelled by `List.getD` defaults), accepts at `RNacc = 0`, and erases a
single vertex, leaving an odd-length sequence. -/
theorem remove_at_draw_one_violates_parity :
    Diagram_core.make 10 1 0 1 [1, 2] = Except.ok ⟨10, 1, 0, 1, [1, 2]⟩ ∧
    attempt_remove_segment ⟨10, 1, 0, 1, [1, 2]⟩ 1 0 = (true, ⟨10, 1, 0, 1, [1]⟩) ∧
    ¬ Even ((⟨10, 1, 0, 1, [1]⟩ : Diagram_core)).vertices.length := by
  refine ⟨?_, ?_, by simp⟩
  · unfold Diagram_core.make machine_eps
    norm_num
  · have hidx : remove_segment_index ⟨10, 1, 0, 1, [1, 2]⟩ 1 = 2 := by
      unfold remove_segment_index ctrunc
      norm_num
    have hpos : remove_pos ⟨10, 1, 0, 1, [1, 2]⟩ 1 = 1 := by
      unfold remove_pos
      rw [hidx]
      rfl
    have htau1 : remove_tau1 ⟨10, 1, 0, 1, [1, 2]⟩ 1 = 2 := by
      unfold remove_tau1
      rw [hpos]
      rfl
    have htau2 : remove_tau2 ⟨10, 1, 0, 1, [1, 2]⟩ 1 = 0 := by
      unfold remove_tau2
      rw [hpos]
      rfl
    have htmax : remove_tau2max ⟨10, 1, 0, 1, [1, 2]⟩ 1 = 10 := by
      unfold remove_tau2max
      rw [hpos]
      rfl
    have hrate : (0 : ℝ) <
        acceptance_rate_remove ⟨10, 1, 0, 1, [1, 2]⟩ (remove_tau1 ⟨10, 1, 0, 1, [1, 2]⟩ 1)
          (remove_tau2 ⟨10, 1, 0, 1, [1, 2]⟩ 1) (remove_tau2max ⟨10, 1, 0, 1, [1, 2]⟩ 1)
          (remove_spin ⟨10, 1, 0, 1, [1, 2]⟩ 1) := by
      rw [htau1, htau2, htmax]
      unfold acceptance_rate_remove size_t_pred
      have hs : ((2 + (2 ^ 64 - 1)) % 2 ^ 64 : ℕ) = 1 := by norm_num
      show (0 : ℝ) < Real.exp (2 * 0 * _ * (0 - 2)) * (((2 + (2 ^ 64 - 1)) % 2 ^ 64 : ℕ) : ℝ) /
        (1 * 1 * 10 * (10 - 2))
      rw [hs]
      positivity
    unfold attempt_remove_segment
    rw [if_neg (by norm_num), if_pos hrate, hpos]
    rfl

/-! ### C3: sortedness of the vertex sequence -/

theorem acceptance_rate_add_pos (d : Diagram_core) (t1 t2 t2m s : ℝ)
    (hg : d.GAMMA ≠ 0) (hb : 0 < d.beta) (ht : t1 < t2m) :
    0 < acceptance_rate_add d t1 t2 t2m s := by
  unfold acceptance_rate_add
  apply div_pos
  · exact mul_pos (mul_pos (mul_pos (mul_self_pos.2 hg) (Real.exp_pos _)) hb) (sub_pos.2 ht)
  · positivity

/-- C3 counterexample: with draws taken from the closed interval [0,1] as
the claim states, `RN2 = 0` makes `tau2 = tau1`, the add update still
accepts (the rate is positive), and the resulting vertex sequence [5, 5] is
not strictly increasing. -/
theorem add_at_rn2_zero_breaks_sortedness :
    List.Pairwise (fun a b => a < b) (([] : List ℝ)) ∧
    attempt_add_segment ⟨10, 1, 1, 1, []⟩ 0.5 0 0 = (true, ⟨10, 1, 1, 1, [5, 5]⟩) ∧
    ¬ List.Pairwise (fun a b => a < b) [(5 : ℝ), 5] := by
  refine ⟨List.Pairwise.nil, ?_, by simp⟩
  have htau1 : add_tau1 ⟨10, 1, 1, 1, []⟩ 0.5 = 5 := by
    rw [add_tau1]; norm_num
  have htmax : add_tau2max ⟨10, 1, 1, 1, []⟩ 0.5 = 10 := by
    rw [add_tau2max, htau1]; rfl
  have htau2 : add_tau2 ⟨10, 1, 1, 1, []⟩ 0.5 0 = 5 := by
    rw [add_tau2, htau1, htmax]; norm_num
  have hidx : add_new_segment_index ⟨10, 1, 1, 1, []⟩ 0.5 = 0 := by
    rw [add_new_segment_index, htau1]; rfl
  have hspin : add_spin ⟨10, 1, 1, 1, []⟩ 0.5 = -1 := by
    rw [add_spin, hidx]; norm_num
  have hrate : (0 : ℝ) < acceptance_rate_add ⟨10, 1, 1, 1, []⟩ 5 5 10 (-1) :=
    acceptance_rate_add_pos _ _ _ _ _ (by norm_num) (by norm_num) (by norm_num)
  unfold attempt_add_segment
  rw [htau1, htau2, htmax, hspin, if_pos hrate]
  rfl

theorem verts_le_subset {t x : ℝ} {l : List ℝ} (hx : x ∈ verts_le t l) : x ∈ l := by
  rw [← verts_le_append_verts_gt t l]
  exact List.mem_append_left _ hx

/-- C3 (amended): on a diagram with strictly increasing vertices and
beta > 0, every accepted `attempt_remove_segment` leaves the vertices
strictly increasing, and every accepted `attempt_add_segment` does so
provided `RN1` lies in [0,1], `RN2` lies in the open interval (0,1),
`RNacc` is nonnegative, and `RN1 * beta` does not collide with an existing
vertex. -/
theorem accepted_updates_preserve_sortedness (d : Diagram_core) (RN1 RN2 RNacc : ℝ)
    (hsort : List.Pairwise (fun a b => a < b) d.vertices) (hbeta : 0 < d.beta)
    (h1 : 0 ≤ RN1) (h2 : RN1 ≤ 1) (h3 : 0 < RN2) (h4 : RN2 < 1) (h5 : 0 ≤ RNacc)
    (hmem : RN1 * d.beta ∉ d.vertices) :
    ((attempt_add_segment d RN1 RN2 RNacc).1 = true →
      List.Pairwise (fun a b => a < b) (attempt_add_segment d RN1 RN2 RNacc).2.vertices) ∧
    (∀ RN1' RNacc' : ℝ, (attempt_remove_segment d RN1' RNacc').1 = true →
      List.Pairwise (fun a b => a < b) (attempt_remove_segment d RN1' RNacc').2.vertices) := by
  constructor
  · intro hacc
    unfold attempt_add_segment at hacc ⊢
    by_cases hcond : RNacc < acceptance_rate_add d (add_tau1 d RN1) (add_tau2 d RN1 RN2)
        (add_tau2max d RN1) (add_spin d RN1)
    swap
    · rw [if_neg hcond] at hacc; exact absurd hacc (by simp)
    rw [if_pos hcond] at hacc ⊢
    show List.Pairwise (fun a b => a < b) (verts_le (add_tau1 d RN1) d.vertices ++
      (add_tau1 d RN1 :: add_tau2 d RN1 RN2 :: verts_gt (add_tau1 d RN1) d.vertices))
    have hsplit := verts_le_append_verts_gt (add_tau1 d RN1) d.vertices
    have hsort' : List.Pairwise (fun a b => a < b)
        (verts_le (add_tau1 d RN1) d.vertices ++ verts_gt (add_tau1 d RN1) d.vertices) := by
      rw [hsplit]; exact hsort
    rw [List.pairwise_append] at hsort'
    obtain ⟨pl, pg, pcross⟩ := hsort'
    have hL : ∀ x ∈ verts_le (add_tau1 d RN1) d.vertices, x < add_tau1 d RN1 := by
      intro x hx
      rcases lt_or_eq_of_le (mem_verts_le hx) with h | h
      · exact h
      · exfalso
        apply hmem
        show add_tau1 d RN1 ∈ d.vertices
        rw [← h]
        exact verts_le_subset hx
    have hGT : ∀ b ∈ verts_gt (add_tau1 d RN1) d.vertices, add_tau1 d RN1 < b := by
      rcases verts_gt_cases (add_tau1 d RN1) d.vertices with hgt | ⟨h0, rest, hgt, hh⟩
      · rw [hgt]; intro b hb; exact absurd hb (List.not_mem_nil b)
      · rw [hgt]
        intro b hb
        rcases List.mem_cons.1 hb with rfl | hb
        · exact hh
        · rw [hgt] at pg
          exact lt_trans hh ((List.pairwise_cons.1 pg).1 b hb)
    have htm_gt : add_tau1 d RN1 < add_tau2max d RN1 := by
      rcases verts_gt_cases (add_tau1 d RN1) d.vertices with hgt | ⟨h0, rest, hgt, hh⟩
      · unfold add_tau2max
        rw [hgt]
        show add_tau1 d RN1 < d.beta
        rcases lt_or_eq_of_le (show add_tau1 d RN1 ≤ d.beta by
          unfold add_tau1; nlinarith) with h | h
        · exact h
        · exfalso
          have hz : acceptance_rate_add d (add_tau1 d RN1) (add_tau2 d RN1 RN2)
              (add_tau2max d RN1) (add_spin d RN1) = 0 := by
            unfold acceptance_rate_add add_tau2max
            rw [hgt]
            show _ * _ * _ * _ * (d.beta - add_tau1 d RN1) / _ = 0
            rw [h]
            ring
          rw [hz] at hcond
          exact absurd hcond (not_lt.2 h5)
      · unfold add_tau2max
        rw [hgt]
        exact hh
    have htau12 : add_tau1 d RN1 < add_tau2 d RN1 RN2 := by
      unfold add_tau2
      nlinarith
    have htau2m : add_tau2 d RN1 RN2 < add_tau2max d RN1 := by
      unfold add_tau2
      nlinarith
    have hGT2 : ∀ b ∈ verts_gt (add_tau1 d RN1) d.vertices, add_tau2 d RN1 RN2 < b := by
      rcases verts_gt_cases (add_tau1 d RN1) d.vertices with hgt | ⟨h0, rest, hgt, hh⟩
      · rw [hgt]; intro b hb; exact absurd hb (List.not_mem_nil b)
      · rw [hgt]
        intro b hb
        have hh0 : add_tau2 d RN1 RN2 < h0 := by
          have : add_tau2max d RN1 = h0 := by unfold add_tau2max; rw [hgt]; rfl
          rw [this] at htau2m
          exact htau2m
        rcases List.mem_cons.1 hb with rfl | hb
        · exact hh0
        · rw [hgt] at pg
          exact lt_trans hh0 ((List.pairwise_cons.1 pg).1 b hb)
    rw [List.pairwise_append]
    refine ⟨pl, ?_, ?_⟩
    · rw [List.pairwise_cons]
      refine ⟨?_, ?_⟩
      · intro b hb
        rcases List.mem_cons.1 hb with rfl | hb
        · exact htau12
        · exact hGT b hb
      · rw [List.pairwise_cons]
        exact ⟨hGT2, pg⟩
    · intro a ha b hb
      have haL := hL a ha
      rcases List.mem_cons.1 hb with rfl | hb
      · exact haL
      rcases List.mem_cons.1 hb with rfl | hb
      · exact lt_trans haL htau12
      · exact lt_trans haL (hGT b hb)
  · intro RN1' RNacc' hacc
    unfold attempt_remove_segment at hacc ⊢
    by_cases hz : d.vertices.length = 0
    · rw [if_pos hz] at hacc; exact absurd hacc (by simp)
    rw [if_neg hz] at hacc ⊢
    by_cases hcond : RNacc' < acceptance_rate_remove d (remove_tau1 d RN1')
        (remove_tau2 d RN1') (remove_tau2max d RN1') (remove_spin d RN1')
    swap
    · rw [if_neg hcond] at hacc; exact absurd hacc (by simp)
    rw [if_pos hcond]
    show List.Pairwise (fun a b => a < b)
      (d.vertices.take (remove_pos d RN1') ++ d.vertices.drop (remove_pos d RN1' + 2))
    have hsub : (d.vertices.take (remove_pos d RN1') ++
        d.vertices.drop (remove_pos d RN1' + 2)).Sublist d.vertices := by
      have hdd : d.vertices.drop (remove_pos d RN1' + 2) =
          List.drop 2 (List.drop (remove_pos d RN1') d.vertices) := by
        rw [List.drop_drop]
      have hstep : (d.vertices.take (remove_pos d RN1') ++
          d.vertices.drop (remove_pos d RN1' + 2)).Sublist
          (d.vertices.take (remove_pos d RN1') ++ d.vertices.drop (remove_pos d RN1')) := by
        rw [hdd]
        exact (List.drop_sublist 2 _).append_left _
      have heq : d.vertices.take (remove_pos d RN1') ++
          d.vertices.drop (remove_pos d RN1') = d.vertices := List.take_append_drop _ _
      rw [heq] at hstep
      exact hstep
    exact hsort.sublist hsub

/-- C3 witness at a concrete diagram and draws. -/
theorem accepted_updates_preserve_sortedness_witness :
    List.Pairwise (fun a b => a < b) [(1 : ℝ), 2, 7, 9] ∧
    (0 : ℝ) < 10 ∧ (0.5 : ℝ) * 10 ∉ [(1 : ℝ), 2, 7, 9] ∧
    (((attempt_add_segment ⟨10, 1, 1, 1, [1, 2, 7, 9]⟩ 0.5 0.25 0).1 = true →
      List.Pairwise (fun a b => a < b)
        (attempt_add_segment ⟨10, 1, 1, 1, [1, 2, 7, 9]⟩ 0.5 0.25 0).2.vertices) ∧
     (∀ RN1' RNacc' : ℝ,
      (attempt_remove_segment ⟨10, 1, 1, 1, [1, 2, 7, 9]⟩ RN1' RNacc').1 = true →
      List.Pairwise (fun a b => a < b)
        (attempt_remove_segment ⟨10, 1, 1, 1, [1, 2, 7, 9]⟩ RN1' RNacc').2.vertices)) :=
  ⟨by norm_num, by norm_num, by norm_num,
   accepted_updates_preserve_sortedness ⟨10, 1, 1, 1, [1, 2, 7, 9]⟩ 0.5 0.25 0
     (by norm_num) (by norm_num) (by norm_num) (by norm_num) (by norm_num) (by norm_num)
     (by norm_num) (by norm_num)⟩


/-! ### C5: when construction and reset report an error -/

/-- C5 counterexample: [1, 1] is not strictly sorted ascending, yet the
constructor accepts it — `std::is_sorted` checks non-strict order — so the
error is not raised exactly under the claimed conditions. -/
theorem constructor_accepts_non_strictly_sorted :
    ¬ List.Chain' (fun a b => a < b) [(1 : ℝ), 1] ∧
    Diagram_core.make 10 1 1 1 [1, 1] = Except.ok ⟨10, 1, 1, 1, [1, 1]⟩ := by
  constructor
  · norm_num [List.chain'_cons]
  · unfold Diagram_core.make machine_eps
    norm_num

/-- C5 (amended): construction and reset report `invalid_argument` exactly
when beta ≤ 0, or the spin is not ±1, or |H| and |GAMMA| are both below
machine epsilon (2⁻⁵², not only when exactly zero), or the vertex count is
odd, or some vertex exceeds beta, or the vertices are not sorted in
non-decreasing order (non-strict, so duplicate vertices are accepted). The
`attempt_*` operations are total functions and signal no error by
construction. -/
theorem construction_reset_error_iff (b : ℝ) (s : ℤ) (hh g : ℝ) (vs : List ℝ)
    (d : Diagram_core) :
    ((∃ e, Diagram_core.make b s hh g vs = Except.error e) ↔ invalid_params b s hh g vs) ∧
    ((∃ e, (reset_diagram d b s hh g vs).1 = some e) ↔ invalid_params b s hh g vs) := by
  have hiff : invalid_params b s hh g vs ↔
      (¬ 0 < b ∨ ((s ≠ 1 ∧ s ≠ -1) ∨ ((|hh| < machine_eps ∧ |g| < machine_eps) ∨
        (vs.length % 2 ≠ 0 ∨ ((∃ v ∈ vs, b < v) ∨
        ¬ List.Chain' (fun a b => a ≤ b) vs))))) := by
    unfold invalid_params
    have e1 : b ≤ 0 ↔ ¬ 0 < b := not_lt.symm
    have e2 : vs.length % 2 = 1 ↔ vs.length % 2 ≠ 0 := by omega
    rw [e1, e2]
  constructor
  · rw [hiff]
    unfold Diagram_core.make
    split_ifs with h1 h2 h3 h4 h5 h6 <;> simp_all
  · rw [hiff]
    unfold reset_diagram
    split_ifs with h1 h2 h3 h4 h5 h6 <;> simp_all

/-! ### C10: reset is atomic with respect to failure -/

/-- C10: whenever `reset_diagram` reports an error, the receiver diagram
retains every field — in `Diagram::reset_diagram` all six validation checks
precede every assignment. -/
theorem reset_diagram_atomic (d : Diagram_core) (b : ℝ) (s : ℤ) (hh g : ℝ)
    (vs : List ℝ) (e : String) (h : (reset_diagram d b s hh g vs).1 = some e) :
    (reset_diagram d b s hh g vs).2 = d := by
  unfold reset_diagram at *
  split_ifs at * <;> first | rfl | exact Option.noConfusion h

/-- C10 witness: a failing reset (beta = -1) leaves a concrete diagram
unchanged. -/
theorem reset_diagram_atomic_witness :
    (reset_diagram ⟨1, 1, 1, 1, []⟩ (-1) 1 1 1 []).1 = some "beta must be > 0" ∧
    (reset_diagram ⟨1, 1, 1, 1, []⟩ (-1) 1 1 1 []).2 = ⟨1, 1, 1, 1, []⟩ := by
  have h : (reset_diagram ⟨1, 1, 1, 1, []⟩ (-1) 1 1 1 []).1 = some "beta must be > 0" := by
    unfold reset_diagram
    rw [if_pos (by norm_num)]
  exact ⟨h, reset_diagram_atomic ⟨1, 1, 1, 1, []⟩ (-1) 1 1 1 [] "beta must be > 0" h⟩


/-! ### C4: acceptance thresholds and the exact rate formulas -/

/-- The claim's formula for the add rate: GAMMA^2 * exp(-2 H spin
(tau2-tau1)) * beta * (tau2max-tau1) / (order + 1). -/
def claim_acceptance_rate_add (d : Diagram_core) (tau1 tau2 tau2max spin : ℝ) : ℝ :=
  d.GAMMA ^ 2 * Real.exp (-2 * d.H * spin * (tau2 - tau1)) * d.beta * (tau2max - tau1) /
    ((d.vertices.length : ℝ) + 1)

/-- The claim's formula for the remove rate, with `order - 1` read as plain
integer arithmetic: exp(2 H spin (tau2-tau1)) * (order - 1) /
(GAMMA^2 * beta * (tau2max-tau1)). -/
def claim_acceptance_rate_remove (d : Diagram_core) (tau1 tau2 tau2max spin : ℝ) : ℝ :=
  Real.exp (2 * d.H * spin * (tau2 - tau1)) * ((d.vertices.length : ℝ) - 1) /
    (d.GAMMA ^ 2 * d.beta * (tau2max - tau1))

/-- C4 counterexample: on the (reachable) order-0 diagram the `size_t`
subtraction `vertices.size() - 1` in `acceptance_rate_remove` wraps to
2⁶⁴ - 1, so the function returns a huge positive value where the claimed
formula, with order - 1 = -1, is negative. -/
theorem remove_rate_order_zero_counterexample :
    acceptance_rate_remove ⟨1, 1, 0, 1, []⟩ 0 0 0.5 1 ≠
      claim_acceptance_rate_remove ⟨1, 1, 0, 1, []⟩ 0 0 0.5 1 := by
  have hL : acceptance_rate_remove ⟨1, 1, 0, 1, []⟩ 0 0 0.5 1 = 2 * (2 ^ 64 - 1) := by
    unfold acceptance_rate_remove size_t_pred
    norm_num [Real.exp_zero]
  have hR : claim_acceptance_rate_remove ⟨1, 1, 0, 1, []⟩ 0 0 0.5 1 = -2 := by
    unfold claim_acceptance_rate_remove
    norm_num [Real.exp_zero]
  rw [hL, hR]
  norm_num

/-- C4 (amended): each `attempt_*` returns `true` — and only then mutates
the diagram — exactly when the acceptance draw is strictly below the
computed rate (for the remove update, only a diagram of nonzero order
computes a rate at all); `acceptance_rate_add` equals the claimed formula
at every order, and `acceptance_rate_remove` equals the claimed formula on
diagrams of order ≥ 1 (at order 0 the size_t subtraction wraps). Both rate
functions are pure by construction: they take the diagram and return a real
without modifying anything. -/
theorem acceptance_threshold_and_formulas :
    (∀ (d : Diagram_core) (t1 t2 t2m s : ℝ),
        acceptance_rate_add d t1 t2 t2m s = claim_acceptance_rate_add d t1 t2 t2m s) ∧
    (∀ (d : Diagram_core) (t1 t2 t2m s : ℝ), 1 ≤ d.vertices.length →
        d.vertices.length < 2 ^ 64 →
        acceptance_rate_remove d t1 t2 t2m s = claim_acceptance_rate_remove d t1 t2 t2m s) ∧
    (∀ (d : Diagram_core) (RN1 RN2 RNacc : ℝ),
        ((attempt_add_segment d RN1 RN2 RNacc).1 = true ↔
          RNacc < acceptance_rate_add d (add_tau1 d RN1) (add_tau2 d RN1 RN2)
            (add_tau2max d RN1) (add_spin d RN1)) ∧
        ((attempt_add_segment d RN1 RN2 RNacc).1 = false →
          (attempt_add_segment d RN1 RN2 RNacc).2 = d)) ∧
    (∀ (d : Diagram_core) (RN1 RNacc : ℝ),
        ((attempt_remove_segment d RN1 RNacc).1 = true ↔
          (d.vertices.length ≠ 0 ∧ RNacc < acceptance_rate_remove d (remove_tau1 d RN1)
            (remove_tau2 d RN1) (remove_tau2max d RN1) (remove_spin d RN1))) ∧
        ((attempt_remove_segment d RN1 RNacc).1 = false →
          (attempt_remove_segment d RN1 RNacc).2 = d)) ∧
    (∀ (d : Diagram_core) (RNacc : ℝ),
        ((attempt_spin_flip d RNacc).1 = true ↔
          RNacc < acceptance_rate_flip d (sum_deltatau d.vertices)) ∧
        ((attempt_spin_flip d RNacc).1 = false → (attempt_spin_flip d RNacc).2 = d)) := by
  refine ⟨?_, ?_, ?_, ?_, ?_⟩
  · intro d t1 t2 t2m s
    unfold acceptance_rate_add claim_acceptance_rate_add
    ring
  · intro d t1 t2 t2m s hn hlt
    have hs : size_t_pred d.vertices.length = d.vertices.length - 1 := by
      unfold size_t_pred
      omega
    unfold acceptance_rate_remove claim_acceptance_rate_remove
    rw [hs]
    have hc : ((d.vertices.length - 1 : ℕ) : ℝ) = (d.vertices.length : ℝ) - 1 := by
      push_cast [hn]
      ring
    rw [hc]
    ring
  · intro d RN1 RN2 RNacc
    constructor
    · unfold attempt_add_segment
      split_ifs with h <;> simp [h]
    · exact attempt_add_rejected d RN1 RN2 RNacc
  · intro d RN1 RNacc
    constructor
    · unfold attempt_remove_segment
      split_ifs with h0 h
      · simp [h0]
      · simp [h0, h]
      · simp [h0, h]
    · exact attempt_remove_rejected d RN1 RNacc
  · intro d RNacc
    constructor
    · unfold attempt_spin_flip
      split_ifs with h <;> simp [h]
    · unfold attempt_spin_flip
      split_ifs with h
      · intro hf; exact absurd hf (by simp)
      · intro _; rfl

/-- C4 witness: the remove-rate formula at a concrete order-2 diagram. -/
theorem acceptance_threshold_and_formulas_witness :
    1 ≤ ((⟨1, 1, 0, 1, [0.3, 0.4]⟩ : Diagram_core)).vertices.length ∧
    ((⟨1, 1, 0, 1, [0.3, 0.4]⟩ : Diagram_core)).vertices.length < 2 ^ 64 ∧
    acceptance_rate_remove ⟨1, 1, 0, 1, [0.3, 0.4]⟩ 0.3 0.4 1 1 =
      claim_acceptance_rate_remove ⟨1, 1, 0, 1, [0.3, 0.4]⟩ 0.3 0.4 1 1 :=
  ⟨by norm_num, by norm_num,
   acceptance_threshold_and_formulas.2.1 ⟨1, 1, 0, 1, [0.3, 0.4]⟩ 0.3 0.4 1 1
     (by norm_num) (by norm_num)⟩


/-! ### C8: the estimator formulas at loop completion -/

theorem sim_update_fields (u dd : ℕ → ℝ) (i : ℕ) (s : SimState) :
    (sim_update u dd i s).N_measures = s.N_measures ∧
    (sim_update u dd i s).temp_sigmax = s.temp_sigmax ∧
    (sim_update u dd i s).temp_sigmaz = s.temp_sigmaz ∧
    (sim_update u dd i s).temp_avgorder = s.temp_avgorder := by
  unfold sim_update
  dsimp only
  split_ifs <;> exact ⟨rfl, rfl, rfl, rfl⟩

theorem sim_step_diag (beta : ℝ) (u dd : ℕ → ℝ) (Nth i : ℕ) (s : SimState) :
    (sim_step beta u dd Nth i s).diag = (sim_update u dd i s).diag := by
  unfold sim_step
  split <;> rfl

/-- The running accumulators of `run_simulation`'s loop after `n`
iterations: `N_measures` counts the post-thermalization iterations, and the
`temp_*` sums are the claimed per-iteration sums over the measured
iterations, each measuring the diagram state right after that iteration's
update. -/
theorem sim_loop_accumulators (beta : ℝ) (s0 : ℤ) (H GAMMA : ℝ) (u dd : ℕ → ℝ)
    (Nth : ℕ) : ∀ n : ℕ,
    (sim_loop beta s0 H GAMMA u dd Nth n).N_measures = n - Nth ∧
    (sim_loop beta s0 H GAMMA u dd Nth n).temp_sigmax =
      ∑ i in Finset.Ico Nth n,
        ((sim_loop beta s0 H GAMMA u dd Nth (i + 1)).diag.vertices.length : ℝ) ∧
    (sim_loop beta s0 H GAMMA u dd Nth n).temp_sigmaz =
      ∑ i in Finset.Ico Nth n,
        ((beta - 2 * sum_deltatau (sim_loop beta s0 H GAMMA u dd Nth (i + 1)).diag.vertices) *
          ((sim_loop beta s0 H GAMMA u dd Nth (i + 1)).diag.s0 : ℝ) / beta) ∧
    (sim_loop beta s0 H GAMMA u dd Nth n).temp_avgorder =
      ∑ i in Finset.Ico Nth n,
        ((sim_loop beta s0 H GAMMA u dd Nth (i + 1)).diag.vertices.length : ℝ) := by
  intro n
  induction n with
  | zero =>
      refine ⟨?_, ?_, ?_, ?_⟩ <;> simp [sim_loop, sim_init]
  | succ n ih =>
      obtain ⟨ihm, ihx, ihz, iha⟩ := ih
      have hstep : sim_loop beta s0 H GAMMA u dd Nth (n + 1) =
          sim_step beta u dd Nth n (sim_loop beta s0 H GAMMA u dd Nth n) := rfl
      have hupd := sim_update_fields u dd n (sim_loop beta s0 H GAMMA u dd Nth n)
      have hdiag : (sim_loop beta s0 H GAMMA u dd Nth (n + 1)).diag =
          (sim_update u dd n (sim_loop beta s0 H GAMMA u dd Nth n)).diag := by
        rw [hstep]
        exact sim_step_diag beta u dd Nth n _
      by_cases hth : Nth ≤ n
      · have hmeas : sim_loop beta s0 H GAMMA u dd Nth (n + 1) =
            sim_measure beta (sim_update u dd n (sim_loop beta s0 H GAMMA u dd Nth n)) := by
          rw [hstep]
          unfold sim_step
          rw [if_pos hth]
        rw [Finset.sum_Ico_succ_top hth, Finset.sum_Ico_succ_top hth]
        refine ⟨?_, ?_, ?_, ?_⟩
        · rw [hmeas]
          show (sim_update u dd n _).N_measures + 1 = n + 1 - Nth
          rw [hupd.1, ihm]
          omega
        · rw [hmeas]
          show (sim_update u dd n _).temp_sigmax +
            ((sim_update u dd n _).diag.vertices.length : ℝ) = _
          rw [hupd.2.1, ihx]
          rfl
        · rw [hmeas]
          show (sim_update u dd n _).temp_sigmaz +
            (beta - 2 * sum_deltatau (sim_update u dd n _).diag.vertices) *
              ((sim_update u dd n _).diag.s0 : ℝ) / beta = _
          rw [hupd.2.2.1, ihz]
          rfl
        · rw [hmeas]
          show (sim_update u dd n _).temp_avgorder +
            ((sim_update u dd n _).diag.vertices.length : ℝ) = _
          rw [hupd.2.2.2, iha]
          rfl
      · have hnom : sim_loop beta s0 H GAMMA u dd Nth (n + 1) =
            sim_update u dd n (sim_loop beta s0 H GAMMA u dd Nth n) := by
          rw [hstep]
          unfold sim_step
          rw [if_neg hth]
        have hico : Finset.Ico Nth (n + 1) = Finset.Ico Nth n := by
          have h1 : Finset.Ico Nth (n + 1) = ∅ := Finset.Ico_eq_empty (by omega)
          have h2 : Finset.Ico Nth n = ∅ := Finset.Ico_eq_empty (by omega)
          rw [h1, h2]
        rw [hnom, hico]
        exact ⟨by rw [hupd.1, ihm]; omega, by rw [hupd.2.1, ihx],
               by rw [hupd.2.2.1, ihz], by rw [hupd.2.2.2, iha]⟩

/-- C8: with at least one measured iteration, at loop completion
`measured_sigmax` is minus the sum of the diagram's order over the measured
iterations divided by `N_measures * beta * GAMMA`, and `measured_sigmaz` is
the sum of `(beta - 2 * alternating_sum(vertices)) * base_spin / beta` over
the measured iterations divided by `N_measures`, where `N_measures` counts
the measured iterations. -/
theorem run_simulation_estimator_formulas (beta : ℝ) (s0 : ℤ) (H GAMMA : ℝ)
    (N Nth : ℕ) (u dd : ℕ → ℝ) (h : Nth < N) :
    (run_simulation beta s0 H GAMMA N Nth u dd).N_measures = N - Nth ∧
    (run_simulation beta s0 H GAMMA N Nth u dd).measured_sigmax =
      -(∑ i in Finset.Ico Nth N,
          ((sim_loop beta s0 H GAMMA u dd Nth (i + 1)).diag.vertices.length : ℝ)) /
        (((N - Nth : ℕ) : ℝ) * beta * GAMMA) ∧
    (run_simulation beta s0 H GAMMA N Nth u dd).measured_sigmaz =
      (∑ i in Finset.Ico Nth N,
          ((beta - 2 * sum_deltatau (sim_loop beta s0 H GAMMA u dd Nth (i + 1)).diag.vertices) *
            ((sim_loop beta s0 H GAMMA u dd Nth (i + 1)).diag.s0 : ℝ) / beta)) /
        ((N - Nth : ℕ) : ℝ) := by
  obtain ⟨hm, hx, hz, _⟩ := sim_loop_accumulators beta s0 H GAMMA u dd Nth N
  unfold run_simulation
  refine ⟨hm, ?_, ?_⟩
  · show (sim_loop beta s0 H GAMMA u dd Nth N).temp_sigmax /
      -(((sim_loop beta s0 H GAMMA u dd Nth N).N_measures : ℝ) * beta * GAMMA) = _
    rw [hx, hm, div_neg, neg_div]
  · show (sim_loop beta s0 H GAMMA u dd Nth N).temp_sigmaz /
      ((sim_loop beta s0 H GAMMA u dd Nth N).N_measures : ℝ) = _
    rw [hz, hm]

/-- C8 witness: a one-iteration run with no thermalization steps. -/
theorem run_simulation_estimator_formulas_witness :
    (0 : ℕ) < 1 ∧
    (run_simulation 1 1 0 1 1 0 (fun _ => 1) (fun _ => 2)).measured_sigmax =
      -(∑ i in Finset.Ico 0 1,
          ((sim_loop 1 1 0 1 (fun _ => 1) (fun _ => 2) 0 (i + 1)).diag.vertices.length : ℝ)) /
        (((1 - 0 : ℕ) : ℝ) * 1 * 1) :=
  ⟨by norm_num,
   (run_simulation_estimator_formulas 1 1 0 1 1 0 (fun _ => 1) (fun _ => 2)
     (by norm_num)).2.1⟩


/-! ### C9: the average diagram order field -/

/-- C9 (amended): at loop completion the `avg_diagram_order` field equals
the integer truncation of order_sum / N_measures — the field is declared
`unsigned long long int` in `simulation.h`, so the real-valued average is
truncated toward zero on assignment. -/
theorem avg_diagram_order_is_truncated_mean (beta : ℝ) (s0 : ℤ) (H GAMMA : ℝ)
    (N Nth : ℕ) (u dd : ℕ → ℝ) (h : Nth < N) :
    (run_simulation beta s0 H GAMMA N Nth u dd).avg_diagram_order =
      ⌊(∑ i in Finset.Ico Nth N,
          ((sim_loop beta s0 H GAMMA u dd Nth (i + 1)).diag.vertices.length : ℝ)) /
        ((N - Nth : ℕ) : ℝ)⌋₊ := by
  obtain ⟨hm, _, _, ha⟩ := sim_loop_accumulators beta s0 H GAMMA u dd Nth N
  unfold run_simulation
  show ⌊(sim_loop beta s0 H GAMMA u dd Nth N).temp_avgorder /
    ((sim_loop beta s0 H GAMMA u dd Nth N).N_measures : ℝ)⌋₊ = _
  rw [ha, hm]

/-- C9 witness (for the amended statement) at a one-iteration run. -/
theorem avg_diagram_order_is_truncated_mean_witness :
    (0 : ℕ) < 1 ∧
    (run_simulation 1 1 0 1 1 0 (fun _ => 1) (fun _ => 2)).avg_diagram_order =
      ⌊(∑ i in Finset.Ico 0 1,
          ((sim_loop 1 1 0 1 (fun _ => 1) (fun _ => 2) 0 (i + 1)).diag.vertices.length : ℝ)) /
        ((1 - 0 : ℕ) : ℝ)⌋₊ :=
  ⟨by norm_num,
   avg_diagram_order_is_truncated_mean 1 1 0 1 1 0 (fun _ => 1) (fun _ => 2) (by norm_num)⟩

/-- Update-choice draws for the C9 counterexample run: add, then flip, then
remove. -/
def c9_uchoice : ℕ → ℝ := fun n => if n = 0 then 0 else if n = 1 then 1 else 1 / 2

/-- Diagram-stream draws for the C9 counterexample run. -/
def c9_ddraw : ℕ → ℝ := fun n => if n = 3 then 5 else 0

theorem acceptance_rate_remove_pos (d : Diagram_core) (t1 t2 t2m s : ℝ)
    (hg : d.GAMMA ≠ 0) (hb : 0 < d.beta) (ht : t1 < t2m)
    (hn : 0 < size_t_pred d.vertices.length) :
    0 < acceptance_rate_remove d t1 t2 t2m s := by
  unfold acceptance_rate_remove
  apply div_pos
  · exact mul_pos (Real.exp_pos _) (by exact_mod_cast hn)
  · exact mul_pos (mul_pos (mul_self_pos.2 hg) hb) (sub_pos.2 ht)

theorem c9_add_eval :
    attempt_add_segment ⟨1, 1, 0, 1, []⟩ 0 0 0 = (true, ⟨1, 1, 0, 1, [0, 0]⟩) := by
  have htau1 : add_tau1 ⟨1, 1, 0, 1, []⟩ 0 = 0 := by rw [add_tau1]; norm_num
  have htmax : add_tau2max ⟨1, 1, 0, 1, []⟩ 0 = 1 := by
    rw [add_tau2max, htau1]; rfl
  have htau2 : add_tau2 ⟨1, 1, 0, 1, []⟩ 0 0 = 0 := by
    rw [add_tau2, htau1, htmax]; norm_num
  have hidx : add_new_segment_index ⟨1, 1, 0, 1, []⟩ 0 = 0 := by
    rw [add_new_segment_index, htau1]; rfl
  have hspin : add_spin ⟨1, 1, 0, 1, []⟩ 0 = -1 := by
    rw [add_spin, hidx]; norm_num
  have hrate : (0 : ℝ) < acceptance_rate_add ⟨1, 1, 0, 1, []⟩ 0 0 1 (-1) :=
    acceptance_rate_add_pos _ _ _ _ _ (by norm_num) (by norm_num) (by norm_num)
  unfold attempt_add_segment
  rw [htau1, htau2, htmax, hspin, if_pos hrate]
  rfl

theorem c9_flip_eval :
    attempt_spin_flip ⟨1, 1, 0, 1, [0, 0]⟩ 5 = (false, ⟨1, 1, 0, 1, [0, 0]⟩) := by
  have hrate : acceptance_rate_flip ⟨1, 1, 0, 1, [0, 0]⟩
      (sum_deltatau ((⟨1, 1, 0, 1, [0, 0]⟩ : Diagram_core)).vertices) = 1 := by
    show acceptance_rate_flip ⟨1, 1, 0, 1, [0, 0]⟩ (sum_deltatau [(0 : ℝ), 0]) = 1
    have hsum : sum_deltatau [(0 : ℝ), 0] = 0 := by
      norm_num [sum_deltatau]
    rw [hsum]
    unfold acceptance_rate_flip
    norm_num [Real.exp_zero]
  unfold attempt_spin_flip
  rw [if_neg (by rw [hrate]; norm_num)]

theorem c9_remove_eval :
    attempt_remove_segment ⟨1, 1, 0, 1, [0, 0]⟩ 0 0 = (true, ⟨1, 1, 0, 1, []⟩) := by
  have hidx : remove_segment_index ⟨1, 1, 0, 1, [0, 0]⟩ 0 = 1 := by
    unfold remove_segment_index ctrunc
    norm_num
  have hpos : remove_pos ⟨1, 1, 0, 1, [0, 0]⟩ 0 = 0 := by
    unfold remove_pos; rw [hidx]; rfl
  have htau1 : remove_tau1 ⟨1, 1, 0, 1, [0, 0]⟩ 0 = 0 := by
    unfold remove_tau1; rw [hpos]; rfl
  have htmax : remove_tau2max ⟨1, 1, 0, 1, [0, 0]⟩ 0 = 1 := by
    unfold remove_tau2max; rw [hpos]; rfl
  have hrate : (0 : ℝ) < acceptance_rate_remove ⟨1, 1, 0, 1, [0, 0]⟩
      (remove_tau1 ⟨1, 1, 0, 1, [0, 0]⟩ 0) (remove_tau2 ⟨1, 1, 0, 1, [0, 0]⟩ 0)
      (remove_tau2max ⟨1, 1, 0, 1, [0, 0]⟩ 0) (remove_spin ⟨1, 1, 0, 1, [0, 0]⟩ 0) := by
    apply acceptance_rate_remove_pos
    · norm_num
    · norm_num
    · rw [htau1, htmax]; norm_num
    · norm_num [size_t_pred]
  unfold attempt_remove_segment
  rw [if_neg (by norm_num), if_pos hrate, hpos]
  rfl

theorem c9_step1 : sim_step 1 c9_uchoice c9_ddraw 0 0 (sim_init 1 1 0 1) =
    ⟨⟨1, 1, 0, 1, [0, 0]⟩, 3, 1, 1, 0, 0, 0, 0, 1, 2, 1, 2, 2⟩ := by
  unfold sim_step sim_update sim_measure sim_init c9_uchoice c9_ddraw
  norm_num [attempt_add_probability, attempt_flip_probability, c9_add_eval, sum_deltatau]

theorem c9_step2 : sim_step 1 c9_uchoice c9_ddraw 0 1
    ⟨⟨1, 1, 0, 1, [0, 0]⟩, 3, 1, 1, 0, 0, 0, 0, 1, 2, 1, 2, 2⟩ =
    ⟨⟨1, 1, 0, 1, [0, 0]⟩, 4, 1, 1, 0, 0, 1, 0, 2, 4, 2, 4, 2⟩ := by
  unfold sim_step sim_update sim_measure c9_uchoice c9_ddraw
  norm_num [attempt_add_probability, attempt_remove_probability, attempt_flip_probability,
    c9_flip_eval, sum_deltatau]

theorem c9_step3 : sim_step 1 c9_uchoice c9_ddraw 0 2
    ⟨⟨1, 1, 0, 1, [0, 0]⟩, 4, 1, 1, 0, 0, 1, 0, 2, 4, 2, 4, 2⟩ =
    ⟨⟨1, 1, 0, 1, []⟩, 6, 1, 1, 1, 1, 1, 0, 3, 4, 3, 4, 2⟩ := by
  unfold sim_step sim_update sim_measure c9_uchoice c9_ddraw
  norm_num [attempt_add_probability, attempt_remove_probability, attempt_flip_probability,
    c9_remove_eval, sum_deltatau]

theorem c9_loop1 : sim_loop 1 1 0 1 c9_uchoice c9_ddraw 0 1 =
    ⟨⟨1, 1, 0, 1, [0, 0]⟩, 3, 1, 1, 0, 0, 0, 0, 1, 2, 1, 2, 2⟩ := by
  show sim_step 1 c9_uchoice c9_ddraw 0 0 (sim_init 1 1 0 1) = _
  exact c9_step1

theorem c9_loop2 : sim_loop 1 1 0 1 c9_uchoice c9_ddraw 0 2 =
    ⟨⟨1, 1, 0, 1, [0, 0]⟩, 4, 1, 1, 0, 0, 1, 0, 2, 4, 2, 4, 2⟩ := by
  show sim_step 1 c9_uchoice c9_ddraw 0 1
    (sim_step 1 c9_uchoice c9_ddraw 0 0 (sim_init 1 1 0 1)) = _
  rw [c9_step1, c9_step2]

theorem c9_loop3 : sim_loop 1 1 0 1 c9_uchoice c9_ddraw 0 3 =
    ⟨⟨1, 1, 0, 1, []⟩, 6, 1, 1, 1, 1, 1, 0, 3, 4, 3, 4, 2⟩ := by
  show sim_step 1 c9_uchoice c9_ddraw 0 2 (sim_step 1 c9_uchoice c9_ddraw 0 1
    (sim_step 1 c9_uchoice c9_ddraw 0 0 (sim_init 1 1 0 1))) = _
  rw [c9_step1, c9_step2, c9_step3]

/-- C9 counterexample: a concrete 3-step run measuring diagram orders 2, 2
and 0: the real-valued average is 4/3 but `avg_diagram_order` stores the
truncated value 1. -/
theorem avg_order_truncation_counterexample :
    (run_simulation 1 1 0 1 3 0 c9_uchoice c9_ddraw).avg_diagram_order = 1 ∧
    (∑ i in Finset.Ico 0 3,
        ((sim_loop 1 1 0 1 c9_uchoice c9_ddraw 0 (i + 1)).diag.vertices.length : ℝ)) /
      ((3 - 0 : ℕ) : ℝ) = 4 / 3 ∧
    ((run_simulation 1 1 0 1 3 0 c9_uchoice c9_ddraw).avg_diagram_order : ℝ) ≠ 4 / 3 := by
  have hsum : (∑ i in Finset.Ico 0 3,
      ((sim_loop 1 1 0 1 c9_uchoice c9_ddraw 0 (i + 1)).diag.vertices.length : ℝ)) = 4 := by
    rw [Nat.Ico_zero_eq_range]
    rw [Finset.sum_range_succ, Finset.sum_range_succ, Finset.sum_range_one]
    rw [c9_loop1, c9_loop2, c9_loop3]
    norm_num
  have havg : (run_simulation 1 1 0 1 3 0 c9_uchoice c9_ddraw).avg_diagram_order = 1 := by
    unfold run_simulation
    show ⌊(sim_loop 1 1 0 1 c9_uchoice c9_ddraw 0 3).temp_avgorder /
      ((sim_loop 1 1 0 1 c9_uchoice c9_ddraw 0 3).N_measures : ℝ)⌋₊ = 1
    rw [c9_loop3]
    show ⌊(4 : ℝ) / ((3 : ℕ) : ℝ)⌋₊ = 1
    rw [Nat.floor_eq_iff (by norm_num)]
    norm_num
  refine ⟨havg, by rw [hsum]; norm_num, by rw [havg]; norm_num⟩

end
